import Mathlib

/-!
Shallow embedding of the taskreview review-and-edit engine (the Go sources:
`main.go` and the unnamed parts of the same package).  Pure functions of the
source are translated directly; effectful functions are modelled as functions
of their inputs (the keystroke-resolved action, the entered line, the backend
export payload) returning the value the Go function returns together with the
record it would submit to the backend, or an `Option`/`Except` error when the
Go code can panic or abort.

Timestamps: the Go code stores timestamps as strings and repeatedly runs them
through `time.Parse(stamp, s)`.  We model an instant as an `Int` (nanoseconds)
and `time.Parse` as `parseTime`: the empty string and non-numeric strings fail
to parse, a string of decimal digits denotes the instant it spells.  The
numeral `0` denotes Go's zero `time.Time` (year 1), which the layout
`20060102T150405Z` can itself express as `00010101T000000Z`; this is what
`end.IsZero()` in getTasks tests for.  `float64` urgency values are modelled
as `Int`: the code only ever compares them.
-/

namespace Taskreview

/-- One nanosecond-count per hour, matching Go's `time.Hour`. -/
def hourD : Int := 3600000000000

/-- Go's `24 * time.Hour`. -/
def dayD : Int := 24 * hourD

/-- Go's `7 * 24 * time.Hour`, the completion window unit in getTasks. -/
def weekD : Int := 7 * dayD

/-- Decimal digit value of a character, `none` when not a digit. -/
def charDigit (c : Char) : Option Nat :=
  if '0' ≤ c ∧ c ≤ '9' then some (c.toNat - '0'.toNat) else none

/-- Fold a digit list into a number; fails on the first non-digit. -/
def digitsVal : List Char → Nat → Option Nat
  | [], acc => some acc
  | c :: cs, acc =>
    match charDigit c with
    | some d => digitsVal cs (10 * acc + d)
    | none => none

/-- Model of parsing an unsigned decimal string; empty input fails. -/
def parseNatStr (s : String) : Option Nat :=
  match s.data with
  | [] => none
  | l => digitsVal l 0

/-- Model of Go's `time.Parse(stamp, s)`: an `Int` instant, or failure. -/
def parseTime (s : String) : Option Int :=
  (parseNatStr s).map Int.ofNat

/-- Model of Go's `strconv.Atoi`: optional sign, then a digit string. -/
def atoi (s : String) : Option Int :=
  match s.data with
  | [] => none
  | '+' :: rest =>
    match rest with
    | [] => none
    | _ => (digitsVal rest 0).map Int.ofNat
  | '-' :: rest =>
    match rest with
    | [] => none
    | _ => (digitsVal rest 0).map (fun n => -(Int.ofNat n))
  | l => (digitsVal l 0).map Int.ofNat

/-- Emit the decimal digits of `n` (auxiliary, fuelled for structural recursion). -/
def digitsAux : Nat → Nat → List Char → List Char
  | 0, _, acc => acc
  | fuel + 1, n, acc =>
    let d := Char.ofNat (48 + n % 10)
    if n < 10 then d :: acc else digitsAux fuel (n / 10) (d :: acc)

/-- Model of `time.Format(stamp)` on an instant: its decimal spelling. -/
def fmtTime (n : Int) : String := String.mk (digitsAux (n.toNat + 1) n.toNat [])

/-- Model of Go's `strings.Trim(s, " \n")`. -/
def trimSpaceNL (s : String) : String :=
  String.mk
    (((s.data.dropWhile fun c => c = ' ' ∨ c = '\n').reverse.dropWhile
      fun c => c = ' ' ∨ c = '\n').reverse)

/-- Model of `strings.Split(s, " ")`: split at every single space. -/
def splitSpAux : List Char → List Char → List String
  | [], acc => [String.mk acc.reverse]
  | c :: cs, acc =>
    if c = ' ' then String.mk acc.reverse :: splitSpAux cs []
    else splitSpAux cs (c :: acc)

/-- How many `_end` tokens getTasks strips from (and counts in) the filter.
In the Go source this is the `completed` counter of `getTasks`. -/
def countEnd (filter : String) : Nat :=
  match filter.data with
  | [] => 0
  | l => ((splitSpAux l []).filter fun w => decide (w = "_end")).length

/-- Model of `strings.HasPrefix(s, "@")`: the first character is `@`. -/
def isUserStr (s : String) : Bool :=
  match s.data with
  | [] => false
  | c :: _ => c = '@'

/-- True for the three reserved color labels red/green/blue. -/
def isColorStr (s : String) : Bool :=
  decide (s = "red" ∨ s = "green" ∨ s = "blue")

/-- Number of reserved color labels in a tag list. -/
def colorCount (tags : List String) : Nat := (tags.filter isColorStr).length

/-- Number of assignee (`@`-prefixed) labels in a tag list. -/
def userCount (tags : List String) : Nat := (tags.filter isUserStr).length

/-- The task record, field for field the Go `task` struct. -/
structure task where
  Completed : String := ""
  Created : String := ""
  Description : String := ""
  Modified : String := ""
  Project : String := ""
  Status : String := ""
  Tags : List String := []
  Uuid : String := ""
  Xid : String := ""
  Reviewed : String := ""
  Urgency : Int := 0
deriving DecidableEq

/-- The sort-mode global `sortBy` of the Go source (URGENCY / DATE / COLOR). -/
inductive SortMode
  | urgency
  | date
  | color
deriving DecidableEq

/-- `task.colorTag`: the first reserved color label among the tags, else "". -/
def task.colorTag (tk : task) : String := colorAux tk.Tags
where
  colorAux : List String → String
  | [] => ""
  | t :: ts => if t = "green" ∨ t = "blue" ∨ t = "red" then t else colorAux ts

/-- `task.userTag`: the first `@`-prefixed tag, else "". -/
def task.userTag (tk : task) : String := userAux tk.Tags
where
  userAux : List String → String
  | [] => ""
  | t :: ts => if isUserStr t then t else userAux ts

/-- `task.sortColor`: the color rank used by the COLOR sort mode. -/
def task.sortColor (tk : task) : Int :=
  match tk.colorTag with
  | "red" => 0
  | "blue" => 1
  | "green" => 2
  | _ => -1

/-- `task.sortTime`: completion time if present else creation time.  The Go
code aborts the process on an unparseable value; no claim depends on the DATE
mode key, so the model returns 0 there. -/
def task.sortTime (tk : task) : Int :=
  (parseTime (if tk.Completed = "" then tk.Created else tk.Completed)).getD 0

/-- The reserved dispute label `kDisputed`. -/
def kDisputed : String := "disputed"

/-- `task.isDisputed`: the dispute label is present. -/
def task.isDisputed (tk : task) : Bool := decide (kDisputed ∈ tk.Tags)

/-- `task.isReviewed` (model): `rtag` is the `-rtag` flag value (the
reviewer-specific tag), `now` the current instant. -/
def task.isReviewed (rtag : String) (now : Int) (tk : task) : Bool :=
  if tk.Completed = "" then
    if tk.Reviewed = "" then false
    else
      match parseTime tk.Reviewed with
      | some rev => decide (now - rev < 24 * hourD)
      | none => false
  else decide (rtag ∈ tk.Tags)

/-! ### The Backend Adapter: getTasks and the doImport guard

`getTasks` is modelled as a function of the filter string, the raw record
list the backend's `export` returns for the (stripped) filter, the current
instant, and the current sort mode.  A parse failure of a completion
timestamp is the `Except.error` branch (the Go code returns a non-nil error,
fatal to every caller). -/

/-- The filtering loop of `getTasks`: skip deleted records; parse the
completion timestamp (error aborts); with `_end` tokens keep records
completed within `completedN` weeks of `now`, otherwise keep records whose
parsed completion time is the zero instant. -/
def filterLoop (completedN : Nat) (now : Int) : List task → Except Unit (List task)
  | [] => .ok []
  | t :: ts =>
    if t.Status = "deleted" then filterLoop completedN now ts
    else
      match (if t.Completed = "" then some 0 else parseTime t.Completed) with
      | none => .error ()
      | some endT =>
        match filterLoop completedN now ts with
        | .error e => .error e
        | .ok rest =>
          if 0 < completedN then
            if now - endT < (completedN : Int) * weekD then .ok (t :: rest) else .ok rest
          else if endT = 0 then .ok (t :: rest)
          else .ok rest

/-- The non-strict ordering the Go `sort.Sort(ByDefined(...))` call leaves
the slice in: adjacent elements a, b of the result satisfy
`¬ ByDefined.Less(b, a)`. -/
def leDefined (m : SortMode) (a b : task) : Prop :=
  match m with
  | .urgency => b.Urgency ≤ a.Urgency
  | .date => task.sortTime b ≤ task.sortTime a
  | .color => task.sortColor a ≤ task.sortColor b

instance leDefinedDec (m : SortMode) : DecidableRel (leDefined m) := fun a b =>
  match m with
  | .urgency => inferInstanceAs (Decidable (b.Urgency ≤ a.Urgency))
  | .date => inferInstanceAs (Decidable (task.sortTime b ≤ task.sortTime a))
  | .color => inferInstanceAs (Decidable (task.sortColor a ≤ task.sortColor b))

instance leDefinedTotal (m : SortMode) : IsTotal task (leDefined m) :=
  ⟨fun a b => by cases m <;> exact Int.le_total _ _⟩

instance leDefinedTrans (m : SortMode) : IsTrans task (leDefined m) :=
  ⟨fun a b c hab hbc => by
    cases m
    · exact le_trans hbc hab
    · exact le_trans hbc hab
    · exact le_trans hab hbc⟩

/-- `sort.Sort(ByDefined(l))` under mode `m`: a permutation of `l` ordered by
`leDefined m`, modelled by insertion sort. -/
def sortTasks (m : SortMode) (l : List task) : List task :=
  l.insertionSort (leDefined m)

/-- `getTasks`: strip and count `_end` tokens, filter the backend's records,
sort by the current mode. -/
def getTasks (filter : String) (raw : List task) (now : Int) (m : SortMode) :
    Except Unit (List task) :=
  match filterLoop (countEnd filter) now raw with
  | .error e => .error e
  | .ok final => .ok (sortTasks m final)

/-- Outcome of `doImport`: the process aborts (`log.Fatal`), the conflict
message is shown and nothing is written, or the record is submitted to the
backend's import channel. -/
inductive ImportOutcome
  | fatal
  | conflict
  | imported
deriving DecidableEq

/-- `task.doImport` (the optimistic-concurrency guard): `raw` is what the
backend's export returns for the query `t.Uuid`. -/
def task.doImport (t : task) (raw : List task) (now : Int) (m : SortMode) :
    ImportOutcome :=
  if t.Uuid = "" then .imported
  else
    match getTasks t.Uuid raw now m with
    | .error _ => .fatal
    | .ok tasks =>
      if 1 < tasks.length then .fatal
      else
        match tasks with
        | [prev] => if prev.Modified = t.Modified then .imported else .conflict
        | _ => .imported

/-! ### Editing operations

Each editing function of the source reads one keystroke (resolved through a
keybinding context) or one line of text, mutates a copy of the task, submits
it through `doImport`, and returns an index delta.  The keystroke resolution
is modelled by an `Option String` argument (`none` when the key is unbound),
the line by a `String`; the result is the record the function submits (or
`none` when nothing is written) paired with the returned delta. -/

/-- `editDescription`: the trimmed line becomes the description; an empty
line writes nothing.  Returns 0. -/
def task.editDescription (t : task) (line : String) : Option task × Int :=
  let d := trimSpaceNL line
  if d = "" then (none, 0)
  else (some { t with Description := d }, 0)

/-- The tag filtering loop at the top of `editAssigned`, which indexes
`t[0]` without a length guard: an empty tag is the Go panic, modelled as
`none`. -/
def stripUserTags : List String → Option (List String)
  | [] => some []
  | t :: ts =>
    match t.data with
    | [] => none
    | c :: _ =>
      match stripUserTags ts with
      | none => none
      | some rest => some (if c = '@' then rest else t :: rest)

/-- `editAssigned`: strip every `@`-tag (panicking on an empty tag), then
append `@` plus the chosen user; an unbound key writes nothing.  Returns 0
either way. -/
def task.editAssigned (t : task) (choice : Option String) :
    Option (Option task × Int) :=
  match stripUserTags t.Tags with
  | none => none
  | some tags =>
    match choice with
    | some a => some (some { t with Tags := tags ++ ["@" ++ a] }, 0)
    | none => some (none, 0)

/-- `editProject`: set the chosen project; unbound key writes nothing. -/
def task.editProject (t : task) (choice : Option String) : Option task × Int :=
  match choice with
  | some p => (some { t with Project := p }, 0)
  | none => (none, 0)

/-- `editTaskColor`: strip the color labels red/green/blue, then append the
label the color context resolves to; unbound key writes nothing. -/
def task.editTaskColor (t : task) (choice : Option String) : Option task × Int :=
  let tags := t.Tags.filter fun tag =>
    decide (tag ≠ "red" ∧ tag ≠ "green" ∧ tag ≠ "blue")
  match choice with
  | some a => (some { t with Tags := tags ++ [a] }, 0)
  | none => (none, 0)

/-- `editTags`: toggle the chosen tag (remove every occurrence if present,
append it if absent). -/
def task.editTags (t : task) (choice : Option String) : Option task × Int :=
  match choice with
  | some tag =>
    let newt := t.Tags.filter fun prev => decide (prev ≠ tag)
    let newt := if tag ∈ t.Tags then newt else newt ++ [tag]
    (some { t with Tags := newt }, 0)
  | none => (none, 0)

/-- `markReviewed`: no-op when already reviewed; otherwise stamp the decaying
marker (open task) or append the reviewer tag (completed task).  Returns 1. -/
def task.markReviewed (rtag : String) (now : Int) (t : task) : Option task × Int :=
  if t.isReviewed rtag now then (none, 1)
  else if t.Completed = "" then (some { t with Reviewed := fmtTime now }, 1)
  else (some { t with Tags := t.Tags ++ [rtag] }, 1)

/-- `deleteTask`: status becomes "deleted".  Returns 1. -/
def task.deleteTask (t : task) : Option task × Int :=
  (some { t with Status := "deleted" }, 1)

/-- `markDone`: status becomes "completed".  Returns 1. -/
def task.markDone (t : task) : Option task × Int :=
  (some { t with Status := "completed" }, 1)

/-- `markDisputed` (dispatched from the "disputed" action of `printInfo`):
idempotent set of the dispute label.  Returns 1. -/
def task.markDisputed (t : task) : Option task × Int :=
  if t.isDisputed then (none, 1)
  else (some { t with Tags := t.Tags ++ [kDisputed] }, 1)

/-- The inputs the editing functions may consume during one `printInfo`
visit. -/
structure EditInput where
  descLine : String := ""
  userChoice : Option String := none
  projChoice : Option String := none
  colorChoice : Option String := none
  tagChoice : Option String := none

/-- The switch at the end of `printInfo`: given the action the "task"
context resolves the keystroke to, the index delta the visit returns.
`none` is the `editAssigned` panic on an empty tag. -/
def printInfoStep (rtag : String) (now : Int) (tk : task) (ins : String)
    (inp : EditInput) (total : Int) : Option Int :=
  if ins = "back" then some (-1)
  else if ins = "quit" then some total
  else if ins = "description" then some (tk.editDescription inp.descLine).2
  else if ins = "assigned" then (tk.editAssigned inp.userChoice).map Prod.snd
  else if ins = "project" then some (tk.editProject inp.projChoice).2
  else if ins = "color" then some (tk.editTaskColor inp.colorChoice).2
  else if ins = "tags" then some (tk.editTags inp.tagChoice).2
  else if ins = "reviewed" then some (tk.markReviewed rtag now).2
  else if ins = "delete" then some tk.deleteTask.2
  else if ins = "done" then some tk.markDone.2
  else if ins = "disputed" then some tk.markDisputed.2
  else some 1

/-! ### The review loop and the goto action -/

/-- `getJump`: parse the entered line (without its trailing newline); a
malformed integer yields the sentinel -1. -/
def getJump (line : String) : Int :=
  match atoi line with
  | some j => j
  | none => -1

/-- The editing loop of `showAndReviewTasks`: starting at index `i` over `n`
tasks, visit indices while `0 ≤ i < n`, moving by the delta each visit
returns (`deltas k` is the delta of the k-th visit); `fuel` bounds the
unrolling.  Returns the list of visited indices. -/
def reviewVisits (n : Nat) (deltas : Nat → Int) : Nat → Nat → Int → List Int
  | 0, _, _ => []
  | fuel + 1, k, i =>
    if 0 ≤ i ∧ i < (n : Int) then i :: reviewVisits n deltas fuel (k + 1) (i + deltas k)
    else []

/-- The "goto" branch of `showAndReviewTasks`: `getJump`, break on the
sentinel -1, otherwise fall through into the review loop at that index. -/
def gotoVisits (line : String) (n : Nat) (deltas : Nat → Int) (fuel : Nat) :
    List Int :=
  if getJump line = -1 then [] else reviewVisits n deltas fuel 0 (getJump line)

/-! ### The Keybinding Registry -/

/-- Modelled from the spec: the keybinding registry (the `Shortcuts` type of
the external `github.com/manishrjain/keys` module) is not among this
repository's sources — only its callers (`generateMappings`, `MapsTo` call
sites) are.  Per the spec it is, for each named context, a table of
character-to-action assignments; an entry is (context, character, value). -/
structure Shortcuts where
  entries : List (String × Char × String)
deriving DecidableEq

/-- Modelled from the spec: a character already used within a context. -/
def usedChar (s : Shortcuts) (ctx : String) (c : Char) : Bool :=
  s.entries.any fun e => decide (e.1 = ctx ∧ e.2.1 = c)

/-- Modelled from the spec: the value already has a binding in the context. -/
def hasValue (s : Shortcuts) (ctx v : String) : Bool :=
  s.entries.any fun e => decide (e.1 = ctx ∧ e.2.2 = v)

/-- Modelled from the spec: the first candidate character not already used
in the context. -/
def firstFree (s : Shortcuts) (ctx : String) : List Char → Option Char
  | [] => none
  | c :: cs => if usedChar s ctx c then firstFree s ctx cs else some c

/-- Modelled from the spec: `AutoAssign(value, context)` — if the value has
no binding yet, bind the first character of its own text not already used in
the context; if all are taken, leave it unbound. -/
def autoAssign (s : Shortcuts) (v ctx : String) : Shortcuts :=
  if hasValue s ctx v then s
  else
    match firstFree s ctx v.data with
    | some c => ⟨s.entries ++ [(ctx, c, v)]⟩
    | none => s

/-- Modelled from the spec: the fixed fallback alphabet scanned by
`BestEffortAssign` when the preferred character is taken. -/
def fallbackAlphabet : List Char := "abcdefghijklmnopqrstuvwxyz0123456789".data

/-- Modelled from the spec: `BestEffortAssign(preferredChar, value, context)`
— bind the preferred character if free, otherwise the first free character
of the fallback alphabet, otherwise leave the value unbound. -/
def bestEffortAssign (s : Shortcuts) (c : Char) (v ctx : String) : Shortcuts :=
  if usedChar s ctx c then
    match firstFree s ctx fallbackAlphabet with
    | some c2 => ⟨s.entries ++ [(ctx, c2, v)]⟩
    | none => s
  else ⟨s.entries ++ [(ctx, c, v)]⟩

/-- Modelled from the spec: `MapsTo(char, context)` resolution. -/
def mapsTo (s : Shortcuts) (c : Char) (ctx : String) : Option String :=
  (s.entries.find? fun e => decide (e.1 = ctx ∧ e.2.1 = c)).map fun e => e.2.2

/-- One assignment call, as issued by `generateMappings`. -/
inductive KeyOp
  | auto (v ctx : String)
  | best (c : Char) (v ctx : String)

/-- Apply one assignment call. -/
def applyOp (s : Shortcuts) : KeyOp → Shortcuts
  | .auto v ctx => autoAssign s v ctx
  | .best c v ctx => bestEffortAssign s c v ctx

/-- Apply a sequence of assignment calls. -/
def applyOps (s : Shortcuts) (ops : List KeyOp) : Shortcuts :=
  ops.foldl applyOp s

/-- The collision-freedom invariant: within one context, a character is
bound to at most one value. -/
def NoCollision (s : Shortcuts) : Prop :=
  ∀ e1 ∈ s.entries, ∀ e2 ∈ s.entries,
    e1.1 = e2.1 → e1.2.1 = e2.2.1 → e1.2.2 = e2.2.2

/-! ## Theorems -/

theorem colorAux_cases :
    ∀ l, task.colorTag.colorAux l = "" ∨ task.colorTag.colorAux l = "green" ∨
      task.colorTag.colorAux l = "blue" ∨ task.colorTag.colorAux l = "red" := by
  intro l
  induction l with
  | nil => left; rfl
  | cons t ts ih =>
    by_cases h : t = "green" ∨ t = "blue" ∨ t = "red"
    · rw [task.colorTag.colorAux, if_pos h]
      tauto
    · rw [task.colorTag.colorAux, if_neg h]
      exact ih

theorem colorTag_cases (tk : task) :
    tk.colorTag = "" ∨ tk.colorTag = "green" ∨ tk.colorTag = "blue" ∨
      tk.colorTag = "red" :=
  colorAux_cases tk.Tags

theorem sortColor_of_no_color (tk : task) (h : tk.colorTag = "") :
    tk.sortColor = -1 := by
  unfold task.sortColor
  rw [h]
  rfl

theorem sortColor_nonneg (tk : task) (h : ¬ tk.colorTag = "") :
    0 ≤ tk.sortColor := by
  rcases colorTag_cases tk with h0 | h0 | h0 | h0
  · exact absurd h0 h
  all_goals unfold task.sortColor
  all_goals rw [h0]
  all_goals decide

/-- C3 (amended): sorting in color mode orders tasks ascending by the rank
(no color) < red < blue < green; consequently a task with NO color label
never comes after a task bearing one — colored tasks sort last, not first. -/
theorem sortTasks_color_order (ts : List task) :
    ((sortTasks .color ts).Pairwise fun a b => a.sortColor ≤ b.sortColor) ∧
    ((sortTasks .color ts).Pairwise fun a b =>
      ¬ a.colorTag = "" → ¬ b.colorTag = "") := by
  have hs : (sortTasks .color ts).Pairwise (leDefined .color) :=
    List.sorted_insertionSort (leDefined .color) ts
  refine ⟨hs, hs.imp ?_⟩
  intro a b hab ha hb
  have h1 := sortColor_nonneg a ha
  have h2 := sortColor_of_no_color b hb
  have h3 : (0 : Int) ≤ b.sortColor := le_trans h1 hab
  rw [h2] at h3
  omega

/-- C3 counterexample: in color mode a task tagged red sorts after a task
with no color label, refuting the claimed rank red < blue < green < (no
color) with colored tasks first. -/
theorem sortTasks_color_counterexample :
    sortTasks .color [{ Tags := ["red"] }, { Tags := [] }] =
      [{ Tags := [] }, { Tags := ["red"] }] ∧
    ¬ ({ Tags := ["red"] } : task).colorTag = "" ∧
    ({ Tags := [] } : task).colorTag = "" := by
  decide

/-- C4: for a task with no completion timestamp, `isReviewed` holds iff the
reviewed marker parses to an instant T with `now - T < 24h`; in particular it
holds throughout `[T, T+24h)` and fails from `T+24h` on.  For a completed
task it holds iff the reviewer-specific tag is present, independent of
`now`. -/
theorem isReviewed_spec (rtag : String) (now : Int) (tk : task) :
    (tk.Completed = "" →
      (tk.isReviewed rtag now = true ↔
        ∃ T, parseTime tk.Reviewed = some T ∧ now - T < 24 * hourD)) ∧
    (¬ tk.Completed = "" →
      (tk.isReviewed rtag now = true ↔ rtag ∈ tk.Tags)) ∧
    (∀ T, tk.Completed = "" → parseTime tk.Reviewed = some T → T ≤ now →
      now < T + 24 * hourD → tk.isReviewed rtag now = true) ∧
    (∀ T, tk.Completed = "" → parseTime tk.Reviewed = some T →
      T + 24 * hourD ≤ now → tk.isReviewed rtag now = false) := by
  have hmain : tk.Completed = "" →
      (tk.isReviewed rtag now = true ↔
        ∃ T, parseTime tk.Reviewed = some T ∧ now - T < 24 * hourD) := by
    intro hc
    unfold task.isReviewed
    rw [if_pos hc]
    by_cases hr : tk.Reviewed = ""
    · have hp : parseTime tk.Reviewed = none := by rw [hr]; rfl
      rw [if_pos hr]
      simp [hp]
    · rw [if_neg hr]
      cases hp : parseTime tk.Reviewed with
      | none => simp [hp]
      | some rev => simp [hp]
  refine ⟨hmain, ?_, ?_, ?_⟩
  · intro hc
    unfold task.isReviewed
    rw [if_neg hc]
    simp
  · intro T hc hp h1 h2
    exact (hmain hc).mpr ⟨T, hp, by omega⟩
  · intro T hc hp h1
    cases hb : tk.isReviewed rtag now with
    | false => rfl
    | true =>
      obtain ⟨T2, hp2, hlt⟩ := (hmain hc).mp hb
      rw [hp] at hp2
      cases hp2
      omega

/-- C4 witness: a task reviewed at instant 50 with no completion timestamp
is reviewed at `now = 100` and no longer reviewed at `now = 50 + 24h`. -/
theorem isReviewed_spec_witness :
    ({ Reviewed := "50" } : task).Completed = "" ∧
    task.isReviewed "r:u" 100 { Reviewed := "50" } = true ∧
    task.isReviewed "r:u" (50 + 24 * hourD) { Reviewed := "50" } = false := by
  refine ⟨rfl, ?_, ?_⟩
  · exact (isReviewed_spec "r:u" 100 { Reviewed := "50" }).1 rfl |>.mpr
      ⟨50, by decide, by decide⟩
  · exact (isReviewed_spec "r:u" (50 + 24 * hourD)
      { Reviewed := "50" }).2.2.2 50 rfl (by decide) (by decide)

theorem stripUserTags_none_of_empty_mem :
    ∀ l : List String, "" ∈ l → stripUserTags l = none := by
  intro l h
  induction l with
  | nil => cases h
  | cons t ts ih =>
    rcases List.mem_cons.mp h with h1 | h1
    · rw [← h1]
      rfl
    · cases ht : t.data with
      | nil => simp only [stripUserTags]; rw [ht]
      | cons c cs =>
        simp only [stripUserTags]
        rw [ht, ih h1]

theorem stripUserTags_some :
    ∀ l tags, stripUserTags l = some tags →
      tags = l.filter fun s => !(isUserStr s) := by
  intro l
  induction l with
  | nil =>
    intro tags h
    simp only [stripUserTags, Option.some.injEq] at h
    simp [← h]
  | cons t ts ih =>
    intro tags h
    simp only [stripUserTags] at h
    cases ht : t.data with
    | nil => rw [ht] at h; cases h
    | cons c cs =>
      rw [ht] at h
      cases hrec : stripUserTags ts with
      | none => rw [hrec] at h; cases h
      | some rest =>
        rw [hrec] at h
        simp only [Option.some.injEq] at h
        have hr := ih rest hrec
        have hu : isUserStr t = decide (c = '@') := by
          simp only [isUserStr]
          rw [ht]
        by_cases hc : c = '@'
        · rw [← h, if_pos hc, List.filter_cons, hu]
          simp [hc, hr]
        · rw [← h, if_neg hc, List.filter_cons, hu]
          simp [hc, hr]

theorem stripUserTags_isSome :
    ∀ l : List String, (∀ s ∈ l, ¬ s = "") →
      stripUserTags l = some (l.filter fun s => !(isUserStr s)) := by
  intro l h
  induction l with
  | nil => rfl
  | cons t ts ih =>
    have ht0 : ¬ t = "" := h t (List.mem_cons_self t ts)
    cases ht : t.data with
    | nil =>
      exfalso
      exact ht0 (by cases t; simp_all)
    | cons c cs =>
      have hrec := ih fun s hs => h s (List.mem_cons_of_mem t hs)
      simp only [stripUserTags]
      rw [ht, hrec]
      dsimp only
      have hu : isUserStr t = decide (c = '@') := by
        simp only [isUserStr]
        rw [ht]
      by_cases hc : c = '@'
      · rw [if_pos hc, List.filter_cons, hu]
        simp [hc]
      · rw [if_neg hc, List.filter_cons, hu]
        simp [hc]

/-- C10: the tag-filtering loop of `editAssigned` reads `t[0]` of every
existing tag with no length guard, so an empty tag reaches the panic branch
(`none`); when every tag is non-empty the operation completes. -/
theorem editAssigned_empty_tag_panic (t : task) (choice : Option String) :
    ("" ∈ t.Tags → t.editAssigned choice = none) ∧
    ((∀ s ∈ t.Tags, ¬ s = "") → ∃ r, t.editAssigned choice = some r) := by
  constructor
  · intro h
    unfold task.editAssigned
    rw [stripUserTags_none_of_empty_mem t.Tags h]
  · intro h
    unfold task.editAssigned
    rw [stripUserTags_isSome t.Tags h]
    cases choice with
    | none => exact ⟨_, rfl⟩
    | some a => exact ⟨_, rfl⟩

/-- C10 witness: a task whose tag list contains the empty string makes
`editAssigned` hit the panic branch, while an all-non-empty tag list
succeeds. -/
theorem editAssigned_empty_tag_panic_witness :
    ("" ∈ (["", "x"] : List String)) ∧
    task.editAssigned { Tags := ["", "x"] } (some "a") = none ∧
    task.editAssigned { Tags := ["y"] } (some "a") =
      some (some { Tags := ["y", "@a"] }, 0) := by
  refine ⟨by decide, ?_, by decide⟩
  exact (editAssigned_empty_tag_panic { Tags := ["", "x"] } (some "a")).1
    (by decide)

/-- C8: a malformed jump line yields the sentinel -1 and the goto action
visits no item; an in-range integer enters the editing loop at exactly that
index; an out-of-range integer starts no editing loop. -/
theorem goto_jump_spec (line : String) (n fuel : Nat) (deltas : Nat → Int) :
    (atoi line = none →
      getJump line = -1 ∧ gotoVisits line n deltas fuel = []) ∧
    (∀ j : Int, atoi line = some j → 0 ≤ j → j < (n : Int) → 1 ≤ fuel →
      (gotoVisits line n deltas fuel).head? = some j) ∧
    (∀ j : Int, atoi line = some j → (j < 0 ∨ (n : Int) ≤ j) →
      gotoVisits line n deltas fuel = []) := by
  refine ⟨?_, ?_, ?_⟩
  · intro h
    have hg : getJump line = -1 := by unfold getJump; rw [h]
    refine ⟨hg, ?_⟩
    unfold gotoVisits
    rw [if_pos hg]
  · intro j h h0 hn hf
    have hg : getJump line = j := by unfold getJump; rw [h]
    have hne : ¬ getJump line = -1 := by rw [hg]; omega
    unfold gotoVisits
    rw [if_neg hne, hg]
    obtain ⟨f, rfl⟩ : ∃ f, fuel = f + 1 := ⟨fuel - 1, by omega⟩
    simp only [reviewVisits]
    rw [if_pos ⟨h0, hn⟩]
    rfl
  · intro j h hout
    have hg : getJump line = j := by unfold getJump; rw [h]
    by_cases he : getJump line = -1
    · unfold gotoVisits
      rw [if_pos he]
    · unfold gotoVisits
      rw [if_neg he, hg]
      have hng : ¬ (0 ≤ j ∧ j < (n : Int)) := by omega
      cases fuel with
      | zero => rfl
      | succ f =>
        simp only [reviewVisits]
        rw [if_neg hng]

/-- C8 witness: the malformed line "12x" jumps nowhere; the line "2" over a
5-element working set enters editing at index 2; the out-of-range line "7"
starts no editing loop. -/
theorem goto_jump_spec_witness :
    atoi "12x" = none ∧ getJump "12x" = -1 ∧
    gotoVisits "12x" 5 (fun _ => 1) 9 = [] ∧
    (gotoVisits "2" 5 (fun _ => 1) 9).head? = some 2 ∧
    gotoVisits "7" 5 (fun _ => 1) 9 = [] := by
  refine ⟨by decide, ?_, ?_, ?_, ?_⟩
  · exact ((goto_jump_spec "12x" 5 9 fun _ => 1).1 (by decide)).1
  · exact ((goto_jump_spec "12x" 5 9 fun _ => 1).1 (by decide)).2
  · exact (goto_jump_spec "2" 5 9 fun _ => 1).2.1 2 (by decide) (by decide)
      (by decide) (by decide)
  · exact (goto_jump_spec "7" 5 9 fun _ => 1).2.2 7 (by decide)
      (Or.inr (by decide))

theorem editDescription_snd (t : task) (line : String) :
    (t.editDescription line).2 = 0 := by
  unfold task.editDescription
  by_cases h : trimSpaceNL line = "" <;> simp [h]

theorem editAssigned_map_snd (t : task) (choice : Option String)
    (h : ∀ s ∈ t.Tags, ¬ s = "") :
    (t.editAssigned choice).map Prod.snd = some 0 := by
  unfold task.editAssigned
  rw [stripUserTags_isSome t.Tags h]
  cases choice with
  | none => rfl
  | some a => rfl

theorem editProject_snd (t : task) (choice : Option String) :
    (t.editProject choice).2 = 0 := by
  cases choice with
  | none => rfl
  | some p => rfl

theorem editTaskColor_snd (t : task) (choice : Option String) :
    (t.editTaskColor choice).2 = 0 := by
  cases choice with
  | none => rfl
  | some a => rfl

theorem editTags_snd (t : task) (choice : Option String) :
    (t.editTags choice).2 = 0 := by
  cases choice with
  | none => rfl
  | some tag => rfl

theorem markReviewed_snd (rtag : String) (now : Int) (t : task) :
    (t.markReviewed rtag now).2 = 1 := by
  unfold task.markReviewed
  split
  · rfl
  · split
    · rfl
    · rfl

theorem markDisputed_snd (t : task) : t.markDisputed.2 = 1 := by
  unfold task.markDisputed
  split
  · rfl
  · rfl

/-- C2 (amended): in the Editing state the content edit actions
(description, assignee, project, color, tags) return a step delta of 0 —
the same item is redisplayed after its refresh — while the mark
reviewed/delete/done/disputed actions and an unrecognized key return +1,
back returns -1, and quit returns `total`, which exits the loop from any
current index. -/
theorem printInfoStep_deltas (rtag : String) (now : Int) (tk : task)
    (inp : EditInput) (total : Int) (hne : ∀ s ∈ tk.Tags, ¬ s = "") :
    printInfoStep rtag now tk "description" inp total = some 0 ∧
    printInfoStep rtag now tk "assigned" inp total = some 0 ∧
    printInfoStep rtag now tk "project" inp total = some 0 ∧
    printInfoStep rtag now tk "color" inp total = some 0 ∧
    printInfoStep rtag now tk "tags" inp total = some 0 ∧
    printInfoStep rtag now tk "reviewed" inp total = some 1 ∧
    printInfoStep rtag now tk "delete" inp total = some 1 ∧
    printInfoStep rtag now tk "done" inp total = some 1 ∧
    printInfoStep rtag now tk "disputed" inp total = some 1 ∧
    printInfoStep rtag now tk "back" inp total = some (-1) ∧
    printInfoStep rtag now tk "quit" inp total = some total ∧
    (∀ ins, ¬ ins ∈ (["back", "quit", "description", "assigned", "project",
        "color", "tags", "reviewed", "delete", "done",
        "disputed"] : List String) →
      printInfoStep rtag now tk ins inp total = some 1) := by
  refine ⟨?_, ?_, ?_, ?_, ?_, ?_, ?_, ?_, ?_, ?_, ?_, ?_⟩
  · simp [printInfoStep, editDescription_snd]
  · simp [printInfoStep, editAssigned_map_snd tk inp.userChoice hne]
  · simp [printInfoStep, editProject_snd]
  · simp [printInfoStep, editTaskColor_snd]
  · simp [printInfoStep, editTags_snd]
  · simp [printInfoStep, markReviewed_snd]
  · simp [printInfoStep, task.deleteTask]
  · simp [printInfoStep, task.markDone]
  · simp [printInfoStep, markDisputed_snd]
  · simp [printInfoStep]
  · simp [printInfoStep]
  · intro ins h
    simp only [List.mem_cons, List.not_mem_nil, or_false, not_or] at h
    obtain ⟨h1, h2, h3, h4, h5, h6, h7, h8, h9, h10, h11⟩ := h
    simp [printInfoStep, h1, h2, h3, h4, h5, h6, h7, h8, h9, h10, h11]

/-- C2 counterexample: the "description" content edit returns a step delta
of 0, not the claimed +1. -/
theorem printInfoStep_content_edit_counterexample :
    printInfoStep "r" 0 { Tags := ["x"] } "description"
      { descLine := "y" } 5 = some 0 ∧
    ¬ printInfoStep "r" 0 { Tags := ["x"] } "description"
      { descLine := "y" } 5 = some 1 := by
  decide

/-- C2 witness: the amended deltas at a concrete task and input. -/
theorem printInfoStep_deltas_witness :
    printInfoStep "r" 0 { Tags := ["x"] } "assigned"
      { userChoice := some "bob" } 7 = some 0 ∧
    printInfoStep "r" 0 { Tags := ["x"] } "done" {} 7 = some 1 ∧
    printInfoStep "r" 0 { Tags := ["x"] } "zzz" {} 7 = some 1 ∧
    printInfoStep "r" 0 { Tags := ["x"] } "back" {} 7 = some (-1) ∧
    printInfoStep "r" 0 { Tags := ["x"] } "quit" {} 7 = some 7 := by
  have h := printInfoStep_deltas "r" 0 { Tags := ["x"] }
    { userChoice := some "bob" } 7 (by decide)
  have h2 := printInfoStep_deltas "r" 0 { Tags := ["x"] } {} 7 (by decide)
  obtain ⟨-, -, -, -, -, -, -, d8, -, d10, d11, d12⟩ := h2
  exact ⟨h.2.1, d8, d12 "zzz" (by decide), d10, d11⟩

theorem length_filter_filter_le {α : Type} (p q : α → Bool) :
    ∀ l : List α, ((l.filter q).filter p).length ≤ (l.filter p).length := by
  intro l
  induction l with
  | nil => simp
  | cons a l ih =>
    cases hq : q a <;> cases hp : p a
    · rw [List.filter_cons, List.filter_cons, if_neg (by simp [hq]),
        if_neg (by simp [hp])]
      exact ih
    · rw [List.filter_cons, List.filter_cons, if_neg (by simp [hq]),
        if_pos (by simp [hp])]
      exact le_trans ih (Nat.le_succ _)
    · rw [List.filter_cons, List.filter_cons, if_pos (by simp [hq]),
        List.filter_cons, if_neg (by simp [hp]), if_neg (by simp [hp])]
      exact ih
    · rw [List.filter_cons, List.filter_cons, if_pos (by simp [hq]),
        List.filter_cons, if_pos (by simp [hp]), if_pos (by simp [hp]),
        List.length_cons, List.length_cons]
      exact Nat.succ_le_succ ih

theorem length_filter_not_self {α : Type} (p : α → Bool) :
    ∀ l : List α, ((l.filter fun a => !(p a)).filter p).length = 0 := by
  intro l
  induction l with
  | nil => simp
  | cons a l ih =>
    cases hp : p a <;> simp [List.filter_cons, hp, ih]

theorem notColor_decide (s : String) :
    (decide (s ≠ "red" ∧ s ≠ "green" ∧ s ≠ "blue")) = !(isColorStr s) := by
  by_cases h : s = "red" ∨ s = "green" ∨ s = "blue"
  · rcases h with h | h | h <;> subst h <;> rfl
  · push_neg at h
    simp [isColorStr, h.1, h.2.1, h.2.2]

theorem isColorStr_at (a : String) : isColorStr ("@" ++ a) = false := by
  have hd : ("@" ++ a).data = '@' :: a.data := String.data_append "@" a
  simp only [isColorStr, decide_eq_false_iff_not, not_or]
  refine ⟨?_, ?_, ?_⟩ <;> intro h <;> rw [String.ext_iff, hd] at h <;>
    simp at h

theorem isUserStr_at (a : String) : isUserStr ("@" ++ a) = true := by
  have hd : ("@" ++ a).data = '@' :: a.data := String.data_append "@" a
  simp only [isUserStr]
  rw [hd]
  simp

/-- C6: `editAssigned` first strips every assignee label and `editTaskColor`
first strips every color label before appending the single chosen label, so
a task with at most one assignee label and at most one color label keeps
that property through either edit; the assignee edit yields exactly the
non-assignee tags followed by the new `@`-label and the color edit exactly
the non-color tags followed by the chosen color. -/
theorem edit_label_invariant (t : task) (a c : String)
    (hc : colorCount t.Tags ≤ 1) (hu : userCount t.Tags ≤ 1)
    (hcol : c = "red" ∨ c = "green" ∨ c = "blue") :
    (∀ t1 d, t.editAssigned (some a) = some (some t1, d) →
      t1.Tags = (t.Tags.filter fun s => !(isUserStr s)) ++ ["@" ++ a] ∧
      colorCount t1.Tags ≤ 1 ∧ userCount t1.Tags = 1) ∧
    (∀ t2 d, t.editTaskColor (some c) = (some t2, d) →
      t2.Tags = (t.Tags.filter fun s => !(isColorStr s)) ++ [c] ∧
      colorCount t2.Tags = 1 ∧ userCount t2.Tags ≤ 1) := by
  constructor
  · intro t1 d h
    unfold task.editAssigned at h
    cases hs : stripUserTags t.Tags with
    | none => rw [hs] at h; cases h
    | some tags =>
      rw [hs] at h
      simp only [Option.some.injEq, Prod.mk.injEq] at h
      obtain ⟨h1, h2⟩ := h
      have hfilter := stripUserTags_some t.Tags tags hs
      have htags : t1.Tags = (t.Tags.filter fun s => !(isUserStr s)) ++
          ["@" ++ a] := by
        rw [← h1, ← hfilter]
      refine ⟨htags, ?_, ?_⟩
      · rw [htags]
        simp only [colorCount, List.filter_append, List.length_append]
        have hle := length_filter_filter_le isColorStr
          (fun s => !(isUserStr s)) t.Tags
        have hat : (["@" ++ a].filter isColorStr).length = 0 := by
          simp [List.filter_cons, isColorStr_at]
        simp only [colorCount] at hc
        omega
      · rw [htags]
        simp only [userCount, List.filter_append, List.length_append]
        have h0 := length_filter_not_self isUserStr t.Tags
        have hat : (["@" ++ a].filter isUserStr).length = 1 := by
          simp [List.filter_cons, isUserStr_at]
        omega
  · intro t2 d h
    unfold task.editTaskColor at h
    simp only [Option.some.injEq, Prod.mk.injEq] at h
    obtain ⟨h1, h2⟩ := h
    have hfun : (fun tag => decide (tag ≠ "red" ∧ tag ≠ "green" ∧
        tag ≠ "blue")) = fun s => !(isColorStr s) := funext notColor_decide
    have htags : t2.Tags = (t.Tags.filter fun s => !(isColorStr s)) ++
        [c] := by
      rw [← h1]
      simp only [hfun]
    refine ⟨htags, ?_, ?_⟩
    · rw [htags]
      simp only [colorCount, List.filter_append, List.length_append]
      have h0 := length_filter_not_self isColorStr t.Tags
      have hcc : ([c].filter isColorStr).length = 1 := by
        rcases hcol with h | h | h <;> subst h <;> rfl
      omega
    · rw [htags]
      simp only [userCount, List.filter_append, List.length_append]
      have hle := length_filter_filter_le isUserStr
        (fun s => !(isColorStr s)) t.Tags
      have hcc : ([c].filter isUserStr).length = 0 := by
        rcases hcol with h | h | h <;> subst h <;> rfl
      simp only [userCount] at hu
      omega

/-- C6 witness: reassigning a task tagged `@alice` (plus a free tag and a
color) to `@bob` keeps `@bob`, drops `@alice`, keeps the other tags, and
keeps both category counts within one. -/
theorem edit_label_invariant_witness :
    colorCount ["@alice", "x", "red"] ≤ 1 ∧
    userCount ["@alice", "x", "red"] ≤ 1 ∧
    task.editAssigned { Tags := ["@alice", "x", "red"] } (some "bob") =
      some (some { Tags := ["x", "red", "@bob"] }, 0) ∧
    "@bob" ∈ (["x", "red", "@bob"] : List String) ∧
    ¬ "@alice" ∈ (["x", "red", "@bob"] : List String) ∧
    "x" ∈ (["x", "red", "@bob"] : List String) ∧
    colorCount ["x", "red", "@bob"] ≤ 1 ∧
    userCount ["x", "red", "@bob"] = 1 := by
  refine ⟨by decide, by decide, by decide, by decide, by decide, by decide,
    ?_, ?_⟩
  · exact ((edit_label_invariant { Tags := ["@alice", "x", "red"] } "bob"
      "red" (by decide) (by decide) (Or.inl rfl)).1
      { Tags := ["x", "red", "@bob"] } 0 (by decide)).2.1
  · exact ((edit_label_invariant { Tags := ["@alice", "x", "red"] } "bob"
      "red" (by decide) (by decide) (Or.inl rfl)).1
      { Tags := ["x", "red", "@bob"] } 0 (by decide)).2.2

theorem filterLoop_mem (cN : Nat) (now : Int) :
    ∀ raw out, filterLoop cN now raw = .ok out → ∀ t ∈ out,
      ¬ t.Status = "deleted" ∧
      ∃ e, (if t.Completed = "" then some 0 else parseTime t.Completed) =
          some e ∧
        (if 0 < cN then now - e < (cN : Int) * weekD else e = 0) := by
  intro raw
  induction raw with
  | nil =>
    intro out h t ht
    simp only [filterLoop] at h
    cases h
    cases ht
  | cons r rs ih =>
    intro out h t ht
    simp only [filterLoop] at h
    by_cases hdel : r.Status = "deleted"
    · rw [if_pos hdel] at h
      exact ih out h t ht
    · rw [if_neg hdel] at h
      cases hend : (if r.Completed = "" then some (0 : Int)
          else parseTime r.Completed) with
      | none => rw [hend] at h; cases h
      | some e0 =>
        rw [hend] at h
        dsimp only at h
        cases hrec : filterLoop cN now rs with
        | error e => rw [hrec] at h; cases h
        | ok rest =>
          rw [hrec] at h
          dsimp only at h
          by_cases hcn : 0 < cN
          · rw [if_pos hcn] at h
            by_cases hwin : now - e0 < (cN : Int) * weekD
            · rw [if_pos hwin] at h
              cases h
              rcases List.mem_cons.mp ht with h1 | h1
              · subst h1
                exact ⟨hdel, e0, hend, by rw [if_pos hcn]; exact hwin⟩
              · exact ih rest hrec t h1
            · rw [if_neg hwin] at h
              cases h
              exact ih _ hrec t ht
          · rw [if_neg hcn] at h
            by_cases hz : e0 = 0
            · rw [if_pos hz] at h
              cases h
              rcases List.mem_cons.mp ht with h1 | h1
              · subst h1
                exact ⟨hdel, e0, hend, by rw [if_neg hcn]; exact hz⟩
              · exact ih rest hrec t h1
            · rw [if_neg hz] at h
              cases h
              exact ih _ hrec t ht

/-- C5 (amended): a successful `getTasks` never returns a deleted task; with
no `_end` token it keeps only tasks whose completion timestamp is absent or
parses to the zero instant (Go's zero `time.Time`, which `end.IsZero()`
cannot tell apart from "no completion"); with N ≥ 1 `_end` tokens — provided
`now` lies at least N weeks past the zero instant, as any real clock does —
it keeps only tasks completed within the last N weeks. -/
theorem getTasks_filter_rules (filter : String) (raw : List task) (now : Int)
    (m : SortMode) (final : List task)
    (h : getTasks filter raw now m = .ok final) :
    (∀ t ∈ final, ¬ t.Status = "deleted") ∧
    (countEnd filter = 0 →
      ∀ t ∈ final, t.Completed = "" ∨ parseTime t.Completed = some 0) ∧
    (0 < countEnd filter → (countEnd filter : Int) * weekD ≤ now →
      ∀ t ∈ final, ¬ t.Completed = "" ∧
        ∃ e, parseTime t.Completed = some e ∧
          now - e < (countEnd filter : Int) * weekD) := by
  unfold getTasks at h
  cases hfl : filterLoop (countEnd filter) now raw with
  | error e => rw [hfl] at h; cases h
  | ok mid =>
    rw [hfl] at h
    dsimp only at h
    cases h
    have hmem : ∀ t ∈ sortTasks m mid, t ∈ mid := by
      intro t ht
      exact (List.mem_insertionSort (leDefined m)).mp ht
    refine ⟨?_, ?_, ?_⟩
    · intro t ht
      exact (filterLoop_mem _ now raw mid hfl t (hmem t ht)).1
    · intro hc0 t ht
      obtain ⟨-, e, he, hif⟩ := filterLoop_mem _ now raw mid hfl t (hmem t ht)
      rw [hc0] at hif
      rw [if_neg (by omega)] at hif
      by_cases hcomp : t.Completed = ""
      · exact Or.inl hcomp
      · rw [if_neg hcomp] at he
        rw [hif] at he
        exact Or.inr he
    · intro hcn hnow t ht
      obtain ⟨-, e, he, hif⟩ := filterLoop_mem _ now raw mid hfl t (hmem t ht)
      rw [if_pos hcn] at hif
      by_cases hcomp : t.Completed = ""
      · rw [if_pos hcomp] at he
        cases he
        omega
      · rw [if_neg hcomp] at he
        exact ⟨hcomp, e, he, hif⟩

/-- C5 counterexample: with no `_end` token, a task whose completion
timestamp is present but parses to the zero instant (the stamp
`00010101T000000Z`, Go's zero time) is kept, although it does have a
completion timestamp. -/
theorem getTasks_zero_time_counterexample :
    getTasks "p" [{ Completed := "0", Status := "pending" }] 1000 .urgency =
      .ok [{ Completed := "0", Status := "pending" }] ∧
    countEnd "p" = 0 ∧
    ¬ ({ Completed := "0", Status := "pending" } : task).Completed = "" :=
  ⟨rfl, by decide, by decide⟩

/-- C5 witness: a deleted record is dropped and an open record kept. -/
theorem getTasks_filter_rules_witness :
    getTasks "" [{ Status := "deleted", Uuid := "a" }, { Uuid := "b" }] 5
      .urgency = .ok [{ Uuid := "b" }] ∧
    (∀ t ∈ [({ Uuid := "b" } : task)], ¬ t.Status = "deleted") ∧
    (∀ t ∈ [({ Uuid := "b" } : task)],
      t.Completed = "" ∨ parseTime t.Completed = some 0) := by
  refine ⟨rfl, ?_, ?_⟩
  · exact (getTasks_filter_rules ""
      [{ Status := "deleted", Uuid := "a" }, { Uuid := "b" }] 5 .urgency
      [{ Uuid := "b" }] rfl).1
  · exact (getTasks_filter_rules ""
      [{ Status := "deleted", Uuid := "a" }, { Uuid := "b" }] 5 .urgency
      [{ Uuid := "b" }] rfl).2.1 (by decide)

/-- C1 (amended): the conflict is signalled exactly when the identity
re-fetch — which runs through `getTasks` and therefore drops deleted and
completion-filtered records — returns exactly one record and its
last-modified timestamp differs from the captured one.  The import is
submitted when the item has no identity, when the filtered re-fetch returns
no record (even though a differing current record may exist in the backend),
or when the single returned record's timestamp matches. -/
theorem doImport_guard (t : task) (raw : List task) (now : Int)
    (m : SortMode) (l : List task)
    (h : getTasks t.Uuid raw now m = .ok l) :
    (t.Uuid = "" → t.doImport raw now m = .imported) ∧
    (¬ t.Uuid = "" →
      (l = [] → t.doImport raw now m = .imported) ∧
      (∀ prev, l = [prev] →
        t.doImport raw now m =
          if prev.Modified = t.Modified then .imported else .conflict)) := by
  constructor
  · intro hu
    unfold task.doImport
    rw [if_pos hu]
  · intro hu
    constructor
    · intro hl
      subst hl
      unfold task.doImport
      rw [if_neg hu, h]
      rfl
    · intro prev hl
      subst hl
      unfold task.doImport
      rw [if_neg hu, h]
      dsimp only
      rw [if_neg (by simp)]

/-- C1 counterexample: the backend's current record for the identity (here a
record another client has marked deleted) carries a different last-modified
timestamp, yet `doImport` submits the import instead of signalling a
conflict, because the re-fetch filters the record out. -/
theorem doImport_filtered_conflict_counterexample :
    ¬ ({ Uuid := "u1", Modified := "T1" } : task).Uuid = "" ∧
    ({ Uuid := "u1", Modified := "T2", Status := "deleted" } : task).Uuid =
      ({ Uuid := "u1", Modified := "T1" } : task).Uuid ∧
    ¬ ({ Uuid := "u1", Modified := "T2", Status := "deleted" } : task).Modified = ({ Uuid := "u1", Modified := "T1" } : task).Modified ∧
    task.doImport { Uuid := "u1", Modified := "T1" }
      [{ Uuid := "u1", Modified := "T2", Status := "deleted" }] 0 .urgency =
      .imported := by
  decide

/-- C1 witness: a surviving record with a differing timestamp does produce
the conflict outcome. -/
theorem doImport_guard_witness :
    getTasks "u1" [{ Uuid := "u1", Modified := "T2" }] 0 .urgency =
      .ok [{ Uuid := "u1", Modified := "T2" }] ∧
    task.doImport { Uuid := "u1", Modified := "T1" }
      [{ Uuid := "u1", Modified := "T2" }] 0 .urgency = .conflict := by
  refine ⟨rfl, ?_⟩
  have h := ((doImport_guard { Uuid := "u1", Modified := "T1" }
    [{ Uuid := "u1", Modified := "T2" }] 0 .urgency
    [{ Uuid := "u1", Modified := "T2" }] rfl).2 (by decide)).2
    { Uuid := "u1", Modified := "T2" } rfl
  rw [h, if_neg (by decide)]

/-- C7: when the identity re-fetch returns more than one record, `doImport`
is fatal and in particular never submits the import. -/
theorem doImport_fatal_on_duplicates (t : task) (raw : List task) (now : Int)
    (m : SortMode) (l : List task) (hu : ¬ t.Uuid = "")
    (h : getTasks t.Uuid raw now m = .ok l) (hl : 1 < l.length) :
    t.doImport raw now m = .fatal ∧ ¬ t.doImport raw now m = .imported := by
  have hf : t.doImport raw now m = .fatal := by
    unfold task.doImport
    rw [if_neg hu, h]
    dsimp only
    rw [if_pos hl]
  exact ⟨hf, by rw [hf]; decide⟩

/-- C7 witness: two backend records sharing one identity make `doImport`
fatal. -/
theorem doImport_fatal_on_duplicates_witness :
    getTasks "u1" [{ Uuid := "u1", Modified := "T2" },
        { Uuid := "u1", Modified := "T3" }] 0 .urgency =
      .ok [{ Uuid := "u1", Modified := "T2" },
        { Uuid := "u1", Modified := "T3" }] ∧
    task.doImport { Uuid := "u1", Modified := "T1" }
      [{ Uuid := "u1", Modified := "T2" },
        { Uuid := "u1", Modified := "T3" }] 0 .urgency = .fatal := by
  refine ⟨rfl, ?_⟩
  exact (doImport_fatal_on_duplicates { Uuid := "u1", Modified := "T1" }
    [{ Uuid := "u1", Modified := "T2" }, { Uuid := "u1", Modified := "T3" }]
    0 .urgency
    [{ Uuid := "u1", Modified := "T2" }, { Uuid := "u1", Modified := "T3" }]
    (by decide) rfl (by decide)).1

theorem usedChar_eq_true (s : Shortcuts) (ctx : String) (c : Char) :
    usedChar s ctx c = true ↔ ∃ e ∈ s.entries, e.1 = ctx ∧ e.2.1 = c := by
  simp [usedChar, List.any_eq_true]

theorem firstFree_not_used (s : Shortcuts) (ctx : String) :
    ∀ l c, firstFree s ctx l = some c → usedChar s ctx c = false := by
  intro l
  induction l with
  | nil => intro c h; cases h
  | cons a l2 ih =>
    intro c h
    simp only [firstFree] at h
    by_cases ha : usedChar s ctx a = true
    · rw [if_pos ha] at h
      exact ih c h
    · rw [if_neg ha] at h
      cases h
      revert ha
      cases usedChar s ctx a <;> simp

theorem noCollision_add (s : Shortcuts) (ctx : String) (c : Char) (v : String)
    (h : NoCollision s) (hf : usedChar s ctx c = false) :
    NoCollision ⟨s.entries ++ [(ctx, c, v)]⟩ := by
  unfold NoCollision
  intro e1 he1 e2 he2 h1 h2
  simp only [List.mem_append, List.mem_singleton] at he1 he2
  rcases he1 with he1 | he1 <;> rcases he2 with he2 | he2
  · exact h e1 he1 e2 he2 h1 h2
  · exfalso
    subst he2
    have hused := (usedChar_eq_true s ctx c).mpr ⟨e1, he1, h1, h2⟩
    rw [hf] at hused
    cases hused
  · exfalso
    subst he1
    have hused := (usedChar_eq_true s ctx c).mpr ⟨e2, he2, h1.symm, h2.symm⟩
    rw [hf] at hused
    cases hused
  · rw [he1, he2]

theorem noCollision_applyOp (s : Shortcuts) (h : NoCollision s) :
    ∀ op, NoCollision (applyOp s op) := by
  intro op
  cases op with
  | auto v ctx =>
    simp only [applyOp, autoAssign]
    by_cases hv : hasValue s ctx v = true
    · rw [if_pos hv]
      exact h
    · rw [if_neg hv]
      cases hff : firstFree s ctx v.data with
      | none => exact h
      | some c =>
        exact noCollision_add s ctx c v h (firstFree_not_used s ctx v.data c hff)
  | best c v ctx =>
    simp only [applyOp, bestEffortAssign]
    by_cases hc : usedChar s ctx c = true
    · rw [if_pos hc]
      cases hff : firstFree s ctx fallbackAlphabet with
      | none => exact h
      | some c2 =>
        exact noCollision_add s ctx c2 v h
          (firstFree_not_used s ctx fallbackAlphabet c2 hff)
    · rw [if_neg hc]
      refine noCollision_add s ctx c v h ?_
      revert hc
      cases usedChar s ctx c <;> simp

theorem mapsTo_of_mem (s : Shortcuts) (h : NoCollision s) (ctx : String)
    (c : Char) (v : String) (hmem : (ctx, c, v) ∈ s.entries) :
    mapsTo s c ctx = some v := by
  unfold mapsTo
  cases hf : s.entries.find? fun e => decide (e.1 = ctx ∧ e.2.1 = c) with
  | none =>
    exfalso
    have hnone := List.find?_eq_none.mp hf (ctx, c, v) hmem
    simp at hnone
  | some e =>
    have hp := List.find?_some hf
    have hmem2 := List.mem_of_find?_eq_some hf
    simp only [decide_eq_true_eq] at hp
    have hv := h e hmem2 (ctx, c, v) hmem (by rw [hp.1]) (by rw [hp.2])
    show some e.2.2 = some v
    rw [hv]

/-- C9 (spec-modelled): starting from the empty registry, any sequence of
AutoAssign and BestEffortAssign calls leaves every context collision-free —
no character of a context is bound to two distinct values — and `mapsTo`
resolves every bound (context, character) pair to its unique value. -/
theorem keybinding_collision_free (ops : List KeyOp) :
    NoCollision (applyOps ⟨[]⟩ ops) ∧
    (∀ ctx c v, (ctx, c, v) ∈ (applyOps ⟨[]⟩ ops).entries →
      mapsTo (applyOps ⟨[]⟩ ops) c ctx = some v) := by
  have hbase : NoCollision (⟨[]⟩ : Shortcuts) := by
    unfold NoCollision
    intro e1 he1
    cases he1
  have hstep : ∀ l s, NoCollision s → NoCollision (applyOps s l) := by
    intro l
    induction l with
    | nil => intro s hs; exact hs
    | cons op rest ih =>
      intro s hs
      exact ih (applyOp s op) (noCollision_applyOp s hs op)
  have hnc : NoCollision (applyOps ⟨[]⟩ ops) := hstep ops ⟨[]⟩ hbase
  exact ⟨hnc, fun ctx c v hmem => mapsTo_of_mem _ hnc ctx c v hmem⟩

/-- C9 witness: a concrete call sequence — two best-effort assignments
competing for `r` in the "color" context and an auto-assignment of an
already-bound value — stays collision-free and resolves `r` to "red". -/
theorem keybinding_collision_free_witness :
    NoCollision (applyOps ⟨[]⟩ [KeyOp.best 'r' "red" "color",
      KeyOp.best 'r' "rev" "color", KeyOp.auto "red" "color"]) ∧
    mapsTo (applyOps ⟨[]⟩ [KeyOp.best 'r' "red" "color",
      KeyOp.best 'r' "rev" "color", KeyOp.auto "red" "color"]) 'r' "color" =
      some "red" := by
  refine ⟨(keybinding_collision_free [KeyOp.best 'r' "red" "color",
    KeyOp.best 'r' "rev" "color", KeyOp.auto "red" "color"]).1, ?_⟩
  exact (keybinding_collision_free [KeyOp.best 'r' "red" "color",
    KeyOp.best 'r' "rev" "color", KeyOp.auto "red" "color"]).2 "color" 'r'
    "red" (by decide)

end Taskreview
